import Mathlib

/-!
# Verification of the Organizador state-management and derived-view layer

Shallow embedding of `src/Organizador/app.js`, a client-side task and expense
organizer.  The mutable module-level `state` object becomes the `AppState`
structure and every operation becomes an explicit function on it.  JS numbers
that the app stores in `amountCents` are integral doubles or `NaN`; they are
modelled as `Option ℤ` with `none` for `NaN`.  The euro-to-cent conversion
performs genuine double-precision arithmetic, so IEEE-754 binary64 rounding is
modelled exactly over `ℚ` (`floatRound`).  Impure inputs (`generateId`,
`Date.now`, the current month) are passed as explicit arguments.
-/

namespace Organizador

/-! ## JS number model -/

/-- JS `+` on the values this app stores in `amountCents`: `none` models `NaN`
(absorbing), `some n` an integral double value. -/
def jsAdd : Option ℤ → Option ℤ → Option ℤ
  | some a, some b => some (a + b)
  | _, _ => none

/-- Binary digit count, fuel-based so that it reduces in the kernel.
`bitlenAux fuel n` counts halving steps of `n`; `fuel ≥ n` suffices. -/
def bitlenAux : ℕ → ℕ → ℕ
  | 0, _ => 0
  | fuel + 1, n => if n = 0 then 0 else bitlenAux fuel (n / 2) + 1

/-- Number of binary digits of `n` (`0` for `0`); for `n > 0` it is
`⌊log₂ n⌋ + 1`. -/
def bitlen (n : ℕ) : ℕ :=
  bitlenAux n n

/-- Nearest integer to `a / b` for `b > 0`, ties to even (the IEEE-754
default rounding applied to a mantissa quotient). -/
def rneDiv (a b : ℕ) : ℕ :=
  let q := a / b
  let r := a % b
  if 2 * r < b then q
  else if b < 2 * r then q + 1
  else if q % 2 = 0 then q else q + 1

/-- `⌊log₂ (a / b)⌋` for `a, b > 0`, from the binary digit counts of
numerator and denominator. -/
def ilog2Rat (a b : ℕ) : ℤ :=
  let k : ℤ := (bitlen a : ℤ) - (bitlen b : ℤ)
  if 0 ≤ k then (if b * 2 ^ k.toNat ≤ a then k else k - 1)
  else (if b ≤ a * 2 ^ (-k).toNat then k else k - 1)

/-- An IEEE-754 binary64 value represented exactly: `m * 2 ^ e`. -/
structure Dyadic where
  m : ℤ
  e : ℤ
  deriving Repr, DecidableEq

/-- Mantissa and exponent of the binary64 value nearest to the positive
rational `a / b` (round-to-nearest, ties-to-even): the result `(m, e)` has
value `m * 2 ^ e` with `2 ^ 52 ≤ m ≤ 2 ^ 53`. -/
def ratToDoublePos (a b : ℕ) : ℕ × ℤ :=
  let e : ℤ := ilog2Rat a b - 52
  if 0 ≤ e then (rneDiv a (b * 2 ^ e.toNat), e)
  else (rneDiv (a * 2 ^ (-e).toNat) b, e)

/-- The binary64 value nearest to `n / b` (`b > 0`).  Faithful on the normal
range, which covers every value this application manipulates; overflow and
subnormals are not modelled. -/
def ratToDouble (n : ℤ) (b : ℕ) : Dyadic :=
  if n = 0 then ⟨0, 0⟩
  else
    let p := ratToDoublePos n.natAbs b
    ⟨if n < 0 then -(p.1 : ℤ) else (p.1 : ℤ), p.2⟩

/-- Re-round an exact dyadic `m * 2 ^ e` to a 53-bit mantissa
(round-to-nearest, ties-to-even): the rounding step of every binary64
arithmetic operation. -/
def round53 (m e : ℤ) : Dyadic :=
  if m = 0 then ⟨0, 0⟩
  else
    let t := bitlen m.natAbs
    if t ≤ 53 then ⟨m, e⟩
    else
      let sh := t - 53
      let mp := rneDiv m.natAbs (2 ^ sh)
      ⟨if m < 0 then -(mp : ℤ) else (mp : ℤ), e + sh⟩

/-- Binary64 multiplication: the exact product, re-rounded to 53 bits. -/
def dmul (x y : Dyadic) : Dyadic :=
  round53 (x.m * y.m) (x.e + y.e)

/-- ECMAScript `Math.round` on the exact value of a finite double: nearest
integer, half toward `+∞`, i.e. `⌊v + 1/2⌋`. -/
def jsRoundD (x : Dyadic) : ℤ :=
  if 0 ≤ x.e then x.m * 2 ^ x.e.toNat
  else
    let d : ℤ := 2 ^ (-x.e).toNat
    Int.fdiv (2 * x.m + d) (2 * d)

/-! ## A model of `parseFloat` for decimal inputs -/

/-- The whitespace characters relevant to the inputs modelled here. -/
def isWs (c : Char) : Bool :=
  c == ' ' || c == '\t' || c == '\n' || c == '\r'

/-- JS `String.prototype.trim` over the character list. -/
def trimL (cs : List Char) : List Char :=
  ((cs.dropWhile isWs).reverse.dropWhile isWs).reverse

/-- JS `String.prototype.trim`. -/
def jsTrim (s : String) : String :=
  ⟨trimL s.toList⟩

/-- Split a longest run of leading decimal digits from the rest. -/
def takeDigits : List Char → List Char × List Char
  | [] => ([], [])
  | c :: cs =>
    if c.isDigit then
      let p := takeDigits cs
      (c :: p.1, p.2)
    else ([], c :: cs)

/-- Numeric value of a decimal digit character. -/
def digitVal (c : Char) : ℕ :=
  c.toNat - 48

/-- Value of a list of decimal digit characters. -/
def digitsToNat (ds : List Char) : ℕ :=
  ds.foldl (fun a c => 10 * a + digitVal c) 0

/-- Exponent following an `e`/`E` marker: optional sign then digits; an
incomplete exponent is ignored (`parseFloat("1e")` is `1`). -/
def parseExpDigits (cs : List Char) : ℤ :=
  let p : Bool × List Char :=
    match cs with
    | '-' :: r => (true, r)
    | '+' :: r => (false, r)
    | _ => (false, cs)
  let es := (takeDigits p.2).1
  if es.isEmpty then 0
  else if p.1 then -(digitsToNat es : ℤ) else (digitsToNat es : ℤ)

/-- The exponent part of a numeric literal, `0` when absent. -/
def expPart : List Char → ℤ
  | 'e' :: cs => parseExpDigits cs
  | 'E' :: cs => parseExpDigits cs
  | _ => 0

/-- ECMAScript `parseFloat` on ordinary decimal inputs: skip whitespace, read
the longest prefix of the form sign, digits, `.`, digits, exponent, and
ignore the rest; the result is the exact value of that literal as
`(num, k)` meaning `num / 10 ^ k`, before binary64 rounding.  `none` models
the `NaN` result when no digits are found.  `Infinity` and hexadecimal
forms, which the app never feeds in, are not modelled. -/
def parseDecimal (s : String) : Option (ℤ × ℕ) :=
  let cs := trimL s.toList
  let p1 : Bool × List Char :=
    match cs with
    | '-' :: r => (true, r)
    | '+' :: r => (false, r)
    | _ => (false, cs)
  let p2 := takeDigits p1.2
  let p3 : List Char × List Char :=
    match p2.2 with
    | '.' :: r => takeDigits r
    | _ => ([], p2.2)
  if p2.1.isEmpty && p3.1.isEmpty then none
  else
    let n0 : ℤ := (digitsToNat (p2.1 ++ p3.1) : ℤ)
    let n1 : ℤ := if p1.1 then -n0 else n0
    let sh : ℤ := expPart p3.2 - p3.1.length
    some (if 0 ≤ sh then (n1 * 10 ^ sh.toNat, 0) else (n1, (-sh).toNat))

/-- `eurosToCents` (app.js 63-65): `Math.round(parseFloat(euros) * 100)`.
`parseFloat` rounds the decimal literal to the nearest binary64, the
multiplication by `100` is performed in binary64, and `Math.round` rounds
half toward `+∞`.  `none` models the `NaN` produced by a non-numeric
input. -/
def eurosToCents (euros : String) : Option ℤ :=
  (parseDecimal euros).map fun p => jsRoundD (dmul (ratToDouble p.1 (10 ^ p.2)) ⟨100, 0⟩)

/-- Stated from the specification, for comparison with the code: round the
rational `n / d` (`d > 0`) to the nearest integer with ties away from
zero. -/
def roundHalfAway (n : ℤ) (d : ℕ) : ℤ :=
  if n < 0 then -(((2 * n.natAbs + d) / (2 * d) : ℕ) : ℤ)
  else (((2 * n.natAbs + d) / (2 * d) : ℕ) : ℤ)

/-! ## Data model (app.js 9-38) -/

/-- A task record (app.js 216-223).  `priority` is one of the strings
`"alta"`, `"media"`, `"baja"` (the `PRIORITIES` constants). -/
structure Task where
  id : String
  text : String
  priority : String
  done : Bool
  createdAt : String
  deriving Repr, DecidableEq

/-- An expense record (app.js 353-360).  `amountCents` is `Math.round` of a
double, hence an integer, or `NaN` (`none`) when the amount did not parse.
`category` is one of the `CATEGORIES` strings. -/
structure Expense where
  id : String
  description : String
  amountCents : Option ℤ
  category : String
  dateISO : String
  deriving Repr, DecidableEq

/-- `state.expenseFilters` (app.js 34-37). -/
structure ExpenseFilters where
  category : String
  month : String
  deriving Repr, DecidableEq

/-- The module-level `state` object (app.js 29-38). -/
structure AppState where
  tasks : List Task
  expenses : List Expense
  currentTab : String
  taskSearch : String
  expenseFilters : ExpenseFilters
  deriving Repr, DecidableEq

/-- `Object.values(CATEGORIES)` in declaration order (app.js 20-26). -/
def CATEGORIES : List String :=
  ["fijos", "ocio", "comida", "coche", "extras"]

/-- The valid priority strings (app.js 14-18). -/
def PRIORITIES : List String :=
  ["alta", "media", "baja"]

/-! ## Task mutations (app.js 216-252) -/

/-- `addTask` (app.js 216-229): builds a task with a fresh id, trimmed text,
`done = false`, the current timestamp, and appends it.  The impure
`generateId()` and `new Date().toISOString()` results are arguments.
Persistence and re-rendering are modelled separately. -/
def addTask (s : AppState) (freshId nowISO text priority : String) : AppState :=
  { s with tasks := s.tasks ++ [⟨freshId, jsTrim text, priority, false, nowISO⟩] }

/-- Helper for `toggleTask`: `state.tasks.find(t => t.id === id)` returns the
first match, whose `done` flag is then flipped in place; later duplicates are
untouched and a missing id changes nothing. -/
def toggleTaskList (id : String) : List Task → List Task
  | [] => []
  | t :: ts => if t.id = id then { t with done := !t.done } :: ts else t :: toggleTaskList id ts

/-- `toggleTask` (app.js 234-242). -/
def toggleTask (s : AppState) (id : String) : AppState :=
  { s with tasks := toggleTaskList id s.tasks }

/-- `deleteTask` (app.js 247-252): `state.tasks = state.tasks.filter(t => t.id !== id)`. -/
def deleteTask (s : AppState) (id : String) : AppState :=
  { s with tasks := s.tasks.filter (fun t => t.id != id) }

/-- `deleteExpense` (app.js 372-378): `state.expenses = state.expenses.filter(e => e.id !== id)`. -/
def deleteExpense (s : AppState) (id : String) : AppState :=
  { s with expenses := s.expenses.filter (fun e => e.id != id) }

/-! ## Task statistics (app.js 287-293) -/

/-- Return value of `calculateTaskStats`. -/
structure TaskStats where
  total : ℕ
  completed : ℕ
  pending : ℕ
  deriving Repr, DecidableEq

/-- `calculateTaskStats` (app.js 287-293): counts over `state.tasks`, never
over the search-filtered list. -/
def calculateTaskStats (s : AppState) : TaskStats :=
  let total := s.tasks.length
  let completed := (s.tasks.filter (fun t => t.done)).length
  { total := total, completed := completed, pending := total - completed }

/-! ## String helpers used by the filters -/

/-- JS `String.prototype.toLowerCase`, modelled on the ASCII range (the only
case-folding the search theorems rely on). -/
def jsToLower (s : String) : String :=
  ⟨s.toList.map Char.toLower⟩

/-- Does `cs` begin with `pat`? -/
def startsWithCL : List Char → List Char → Bool
  | _, [] => true
  | [], _ :: _ => false
  | a :: as, b :: bs => a == b && startsWithCL as bs

/-- JS `String.prototype.startsWith`. -/
def jsStartsWith (s pat : String) : Bool :=
  startsWithCL s.toList pat.toList

/-- Helper for `jsIncludes`: `pat` occurs somewhere in the list. -/
def includesCL (pat : List Char) : List Char → Bool
  | [] => pat.isEmpty
  | c :: cs => startsWithCL (c :: cs) pat || includesCL pat cs

/-- JS `String.prototype.includes`. -/
def jsIncludes (s pat : String) : Bool :=
  includesCL pat.toList s.toList

/-! ## Sorting tasks (app.js 265-282) -/

/-- `priorityOrder` (app.js 266): rank of a priority string.  An unknown
priority has no object entry (`undefined`, so the source comparator computes
`NaN`); the junk rank `0` stands in for that — the theorems only concern
tasks with valid priorities, where ranks are `3 / 2 / 1` as in the source. -/
def priorityOrder (p : String) : ℤ :=
  if p == "alta" then 3 else if p == "media" then 2 else if p == "baja" then 1 else 0

/-- The comparator passed to `tasks.sort` (app.js 268-281): pending before
done, then descending priority rank, then `localeCompare` on the text.
`lc` is `String.prototype.localeCompare`, a locale-dependent comparison, kept
as a parameter of the model. -/
def taskCmp (lc : String → String → ℤ) (a b : Task) : ℤ :=
  if a.done ≠ b.done then (if a.done then 1 else -1)
  else if a.priority ≠ b.priority then priorityOrder b.priority - priorityOrder a.priority
  else lc a.text b.text

/-- The order induced by the comparator: `a` may be placed before `b`. -/
def taskLe (lc : String → String → ℤ) (a b : Task) : Prop :=
  taskCmp lc a b ≤ 0

instance taskLeDec (lc : String → String → ℤ) : DecidableRel (taskLe lc) :=
  fun a b => inferInstanceAs (Decidable (taskCmp lc a b ≤ 0))

/-- `sortTasks` (app.js 265-282) as a value.  `Array.prototype.sort` is
specified to sort stably by a consistent comparator; a stable sorted
permutation is unique, so stable insertion sort computes the same list.  The
in-place mutation of the argument array is modelled by `renderTasksRun`. -/
def sortTasks (lc : String → String → ℤ) (tasks : List Task) : List Task :=
  tasks.insertionSort (taskLe lc)

/-! ## Task search (app.js 257-346) -/

/-- `filterTasks` (app.js 257-260): stores the lowercased search text. -/
def filterTasks (s : AppState) (searchText : String) : AppState :=
  { s with taskSearch := jsToLower searchText }

/-- The filtering inside `renderTasks` (app.js 313-319) followed by
`sortTasks` (app.js 322), as a value (the specification calls this
`getFilteredTasks`). -/
def getFilteredTasks (lc : String → String → ℤ) (s : AppState) : List Task :=
  sortTasks lc
    (if s.taskSearch = "" then s.tasks
     else s.tasks.filter (fun t => jsIncludes (jsToLower t.text) s.taskSearch))

/-- The effect of `renderTasks` (app.js 309-346) on the store.  With an
empty search, `filteredTasks` IS `state.tasks` — no copy is made — and
`sortTasks` sorts that very array in place via `Array.prototype.sort`, so
the task array of the store is reordered.  A non-empty search makes
`filter` allocate a fresh array and the store is untouched.  DOM output is
outside the model. -/
def renderTasksRun (lc : String → String → ℤ) (s : AppState) : AppState :=
  if s.taskSearch = "" then { s with tasks := sortTasks lc s.tasks } else s

/-! ## Expense filtering and sorting (app.js 438-452) -/

/-- Date fields of a canonical `YYYY-MM-DD` string; `none` on any other
shape. -/
def parseDateISO (s : String) : Option (ℕ × ℕ × ℕ) :=
  match s.toList with
  | [y1, y2, y3, y4, '-', m1, m2, '-', d1, d2] =>
    if y1.isDigit && y2.isDigit && y3.isDigit && y4.isDigit
        && m1.isDigit && m2.isDigit && d1.isDigit && d2.isDigit then
      let y := digitsToNat [y1, y2, y3, y4]
      let mo := digitsToNat [m1, m2]
      let d := digitsToNat [d1, d2]
      if 1 ≤ mo ∧ mo ≤ 12 ∧ 1 ≤ d ∧ d ≤ 31 then some (y, mo, d) else none
    else none
  | _ => none

/-- `true` when `dateISO` is a canonical calendar date string — the only form
the application produces (`<input type="date">` and `dateToISO` both emit
it). -/
def validDateISO (s : String) : Bool :=
  (parseDateISO s).isSome

/-- A numeric key ordered exactly like the time value
`new Date(s).getTime()` on canonical date strings: later date, larger key.
The sort comparator only ever consumes the sign of a difference of two such
values, so replacing time values by keys leaves the sort unchanged.  Junk
value `0` for malformed strings, where the source comparator yields `NaN`
and the sort order is unspecified. -/
def dateKey (s : String) : ℤ :=
  match parseDateISO s with
  | some t => ((t.1 * 10000 + t.2.1 * 100 + t.2.2 : ℕ) : ℤ)
  | none => 0

/-- The comparator `(a, b) => new Date(b.dateISO) - new Date(a.dateISO)`
(app.js 451), as an order: `a` may precede `b` iff the comparator value is
`≤ 0`, i.e. descending chronological order. -/
def expLe (a b : Expense) : Prop :=
  dateKey b.dateISO ≤ dateKey a.dateISO

instance expLeDec : DecidableRel expLe :=
  fun a b => inferInstanceAs (Decidable (dateKey b.dateISO ≤ dateKey a.dateISO))

/-- `getFilteredExpenses` (app.js 438-452) as a value: category exact match
(skipped for the empty filter), then month test via
`dateISO.startsWith(month)` (skipped for the empty filter), then sort by
date, most recent first. -/
def getFilteredExpenses (s : AppState) : List Expense :=
  let l1 := if s.expenseFilters.category = "" then s.expenses
            else s.expenses.filter (fun e => e.category == s.expenseFilters.category)
  let l2 := if s.expenseFilters.month = "" then l1
            else l1.filter (fun e => jsStartsWith e.dateISO s.expenseFilters.month)
  l2.insertionSort expLe

/-- The effect of `getFilteredExpenses` on the store: with both filters
empty no `filter` call runs, `filtered` IS `state.expenses`, and the final
`filtered.sort(...)` reorders the store array in place; any active filter
first allocates a fresh array, leaving the store untouched. -/
def getFilteredExpensesRun (s : AppState) : AppState × List Expense :=
  if s.expenseFilters.category = "" ∧ s.expenseFilters.month = "" then
    ({ s with expenses := getFilteredExpenses s }, getFilteredExpenses s)
  else (s, getFilteredExpenses s)

/-! ## Expense statistics (app.js 394-433) -/

/-- Return value of `calculateExpenseStats`. -/
structure ExpenseStats where
  total : Option ℤ
  monthly : Option ℤ
  deriving Repr, DecidableEq

/-- The JS `reduce((sum, e) => sum + e.amountCents, 0)`. -/
def jsSum (es : List Expense) : Option ℤ :=
  es.foldl (fun acc e => jsAdd acc e.amountCents) (some 0)

/-- `calculateExpenseStats` (app.js 394-403).  `currentMonth` is the impure
`getCurrentMonth()` result, passed in.  Both sums read `state.expenses`
directly; `state.expenseFilters` plays no part. -/
def calculateExpenseStats (s : AppState) (currentMonth : String) : ExpenseStats :=
  { total := jsSum s.expenses
    monthly := jsSum (s.expenses.filter (fun e => jsStartsWith e.dateISO currentMonth)) }

/-- One step of `totals[expense.category] += expense.amountCents`
(app.js 428-430) on an insertion-ordered association list (a JS object with
string keys).  A present key is updated with JS `+`; an absent key — possible
only for records outside the category enum — becomes `undefined + v`, that
is `NaN`. -/
def objAdd (m : List (String × Option ℤ)) (k : String) (v : Option ℤ) :
    List (String × Option ℤ) :=
  if (m.lookup k).isSome then
    m.map (fun p => if p.1 == k then (p.1, jsAdd p.2 v) else p)
  else m ++ [(k, none)]

/-- `calculateCategoryTotals` (app.js 418-433): every known category key
starts at zero, then the currently filtered expenses are accumulated by
category. -/
def calculateCategoryTotals (s : AppState) : List (String × Option ℤ) :=
  (getFilteredExpenses s).foldl (fun tot e => objAdd tot e.category e.amountCents)
    (CATEGORIES.map (fun c => (c, some 0)))

/-! ## Expense mutations (app.js 353-389) -/

/-- `dateToISO` (app.js 70-72): `new Date(date).toISOString().split('T')[0]`.
On the canonical `YYYY-MM-DD` strings the date input supplies, parsing as
UTC midnight and reprinting the UTC date is the identity, which is how it is
modelled; no other input shape occurs in the app. -/
def dateToISO (date : String) : String :=
  date

/-- `addExpense` (app.js 353-367): always appends — no validation and no
error path; a non-numeric `amount` is stored as `NaN` cents. -/
def addExpense (s : AppState) (freshId description amount category date : String) : AppState :=
  { s with expenses := s.expenses ++
      [⟨freshId, jsTrim description, eurosToCents amount, category, dateToISO date⟩] }

/-- `filterExpenses` (app.js 383-389). -/
def filterExpenses (s : AppState) (category month : String) : AppState :=
  { s with expenseFilters := ⟨category, month⟩ }

/-! ## Persistence and the sample bootstrap (app.js 94-209) -/

/-- The impure inputs of the sample loaders: six `generateId()` results and
the formatted current dates (app.js 144-209). -/
structure SampleEnv where
  id1 : String
  id2 : String
  id3 : String
  id4 : String
  id5 : String
  id6 : String
  nowISO : String
  todayISO : String
  yesterdayISO : String
  lastWeekISO : String
  deriving Repr, DecidableEq

/-- The fixed sample dataset of `loadSampleTasks` (app.js 145-167). -/
def sampleTasks (env : SampleEnv) : List Task :=
  [⟨env.id1, "Revisar presupuesto mensual", "alta", false, env.nowISO⟩,
   ⟨env.id2, "Hacer ejercicio", "media", false, env.nowISO⟩,
   ⟨env.id3, "Leer libro de programación", "baja", false, env.nowISO⟩]

/-- The fixed sample dataset of `loadSampleExpenses` (app.js 183-205). -/
def sampleExpenses (env : SampleEnv) : List Expense :=
  [⟨env.id4, "Supermercado", some 4567, "comida", env.todayISO⟩,
   ⟨env.id5, "Gasolina", some 6500, "coche", env.yesterdayISO⟩,
   ⟨env.id6, "Netflix", some 1599, "ocio", env.lastWeekISO⟩]

/-- The persistence adapter: the two localStorage keys.  `none` models an
absent key or corrupt JSON — both are caught by `loadFromStorage`
(app.js 105-113) and turned into the default `[]`. -/
structure Storage where
  tasksKey : Option (List Task)
  expensesKey : Option (List Expense)
  deriving Repr, DecidableEq

/-- `saveState` (app.js 118-121): both collections are serialized whole to
their keys after every mutation. -/
def saveState (s : AppState) (st : Storage) : Storage :=
  { st with tasksKey := some s.tasks, expensesKey := some s.expenses }

/-- `loadState` (app.js 126-137) with the sample bootstrap (app.js 144-209):
each collection loads with default `[]`; an empty collection is replaced by
the sample dataset, which is immediately persisted to that collection key
(`saveToStorage` inside each loader); a non-empty collection leaves its key
untouched.  Returns the loaded state (the remaining `state` fields keep
their initial values, app.js 29-38) and the storage after the bootstrap
writes. -/
def loadState (env : SampleEnv) (st : Storage) : AppState × Storage :=
  let tasks0 := st.tasksKey.getD []
  let expenses0 := st.expensesKey.getD []
  let tp : List Task × Storage :=
    if tasks0.length = 0 then (sampleTasks env, { st with tasksKey := some (sampleTasks env) })
    else (tasks0, st)
  let ep : List Expense × Storage :=
    if expenses0.length = 0 then
      (sampleExpenses env, { tp.2 with expensesKey := some (sampleExpenses env) })
    else (expenses0, tp.2)
  ({ tasks := tp.1, expenses := ep.1, currentTab := "tareas", taskSearch := "",
     expenseFilters := ⟨"", ""⟩ }, ep.2)

/-! ## Shared helper lemmas -/

/-- A missing id leaves `toggleTaskList` with nothing to flip. -/
theorem toggleTaskList_not_mem {id : String} {ts : List Task} (h : id ∉ ts.map Task.id) :
    toggleTaskList id ts = ts := by
  induction ts with
  | nil => rfl
  | cons t ts ih =>
    simp only [List.map_cons, List.mem_cons, not_or] at h
    rw [toggleTaskList, if_neg (fun hh => h.1 hh.symm), ih h.2]

/-- Concrete store used by several witnesses. -/
def wState : AppState :=
  { tasks := [⟨"t1", "Comprar pan", "alta", false, "2024-01-01"⟩,
              ⟨"t2", "Hacer ejercicio", "media", true, "2024-01-02"⟩],
    expenses := [⟨"e1", "Supermercado", some 4567, "comida", "2024-03-15"⟩,
                 ⟨"e2", "Gasolina", some 6500, "coche", "2024-03-01"⟩],
    currentTab := "tareas", taskSearch := "", expenseFilters := ⟨"", ""⟩ }

/-! ## The claims -/

/-- C1: in every reachable state — `calculateTaskStats` is a pure function
of the task list, so this is stated for every task list, which covers every
state any sequence of `addTask`, `toggleTask`, `deleteTask` produces — the
returned record counts the entire collection: `total` is the number of
tasks, `completed` the number of tasks with `done = true`,
`pending = total - completed`, hence `total = completed + pending`; the
task search (and every other state component) does not affect the counts. -/
theorem calculateTaskStats_invariant
    (tasks : List Task) (e₁ e₂ : List Expense) (tab₁ tab₂ search₁ search₂ : String)
    (f₁ f₂ : ExpenseFilters) :
    calculateTaskStats ⟨tasks, e₁, tab₁, search₁, f₁⟩
      = calculateTaskStats ⟨tasks, e₂, tab₂, search₂, f₂⟩ ∧
    (calculateTaskStats ⟨tasks, e₁, tab₁, search₁, f₁⟩).total = tasks.length ∧
    (calculateTaskStats ⟨tasks, e₁, tab₁, search₁, f₁⟩).completed
      = tasks.countP (fun t => t.done) ∧
    (calculateTaskStats ⟨tasks, e₁, tab₁, search₁, f₁⟩).pending
      = tasks.length - tasks.countP (fun t => t.done) ∧
    (calculateTaskStats ⟨tasks, e₁, tab₁, search₁, f₁⟩).total
      = (calculateTaskStats ⟨tasks, e₁, tab₁, search₁, f₁⟩).completed
        + (calculateTaskStats ⟨tasks, e₁, tab₁, search₁, f₁⟩).pending := by
  have hle : (tasks.filter (fun t => t.done)).length ≤ tasks.length :=
    List.length_filter_le _ _
  refine ⟨rfl, rfl, ?_, ?_, ?_⟩
  · simp [calculateTaskStats, List.countP_eq_length_filter]
  · simp [calculateTaskStats, List.countP_eq_length_filter]
  · simp only [calculateTaskStats]
    omega

/-- C2: an id that occurs in neither collection makes `toggleTask`,
`deleteTask` and `deleteExpense` a no-op — the state is returned unchanged,
and, the functions being total, no error is possible. -/
theorem notFound_noop (s : AppState) (id : String)
    (ht : id ∉ s.tasks.map Task.id) (he : id ∉ s.expenses.map Expense.id) :
    toggleTask s id = s ∧ deleteTask s id = s ∧ deleteExpense s id = s := by
  obtain ⟨tasks, expenses, tab, search, f⟩ := s
  simp only [List.map_cons] at ht he
  refine ⟨?_, ?_, ?_⟩
  · simp only [toggleTask]
    rw [toggleTaskList_not_mem ht]
  · simp only [deleteTask, AppState.mk.injEq, and_true, true_and]
    apply List.filter_eq_self.mpr
    intro t hmem
    simp only [bne_iff_ne, ne_eq]
    exact fun hh => ht (hh ▸ List.mem_map_of_mem Task.id hmem)
  · simp only [deleteExpense, AppState.mk.injEq, and_true, true_and]
    apply List.filter_eq_self.mpr
    intro e hmem
    simp only [bne_iff_ne, ne_eq]
    exact fun hh => he (hh ▸ List.mem_map_of_mem Expense.id hmem)

/-- Witness for C2: the id `"zz"` occurs nowhere in the concrete store, and
all three operations leave it unchanged. -/
theorem notFound_noop_witness :
    toggleTask wState "zz" = wState ∧ deleteTask wState "zz" = wState ∧
      deleteExpense wState "zz" = wState :=
  notFound_noop wState "zz" (by decide) (by decide)

/-- C3: `calculateExpenseStats` does not look at `expenseFilters` (nor at
any non-expense component): any two filter settings produce the same record;
`total` is the JS sum of `amountCents` over the entire unfiltered expense
collection and `monthly` the JS sum over the expenses whose `dateISO` has
the current `YYYY-MM` month as prefix — whatever the active month filter
says. -/
theorem calculateExpenseStats_filter_independent
    (tasks₁ tasks₂ : List Task) (expenses : List Expense)
    (tab₁ tab₂ search₁ search₂ currentMonth : String) (f₁ f₂ : ExpenseFilters) :
    calculateExpenseStats ⟨tasks₁, expenses, tab₁, search₁, f₁⟩ currentMonth
      = calculateExpenseStats ⟨tasks₂, expenses, tab₂, search₂, f₂⟩ currentMonth ∧
    (calculateExpenseStats ⟨tasks₁, expenses, tab₁, search₁, f₁⟩ currentMonth).total
      = jsSum expenses ∧
    (calculateExpenseStats ⟨tasks₁, expenses, tab₁, search₁, f₁⟩ currentMonth).monthly
      = jsSum (expenses.filter (fun e => jsStartsWith e.dateISO currentMonth)) :=
  ⟨rfl, rfl, rfl⟩

/-- C4 counterexample: on input `"1.005"` the code produces `100` cents,
but the exact decimal amount `1.005` euros is `100.5` cents, which
round-half-away-from-zero sends to `101`: the conversion is not
nearest-cent rounding of the decimal input.  (`parseFloat("1.005")` is the
binary64 value `1.00499999999999989…`, whose double product with `100` is
`100.49999999999998…`, and `Math.round` takes it down to `100`.) -/
theorem eurosToCents_not_nearest_cent :
    eurosToCents "1.005" = some 100 ∧
    parseDecimal "1.005" = some (1005, 3) ∧
    roundHalfAway (1005 * 100) (10 ^ 3) = 101 ∧
    eurosToCents "1.005" ≠ some (roundHalfAway (1005 * 100) (10 ^ 3)) := by
  exact ⟨by decide, by decide, by decide, by decide⟩

/-- C4 amended: the conversion computes `Math.round(parseFloat(euros)*100)`
in binary64 arithmetic — round-half-up applied to the double product, which
on non-negative inputs agrees with round-half-away-from-zero applied to
that product.  On the specified examples it coincides with nearest-cent
rounding of the decimal amount: `45.67 ↦ 4567`, `65 ↦ 6500`,
`15.999 ↦ 1600` (and the exactly representable half-cent `0.125 ↦ 13`),
but not on every input: `1.005 ↦ 100`. -/
theorem eurosToCents_examples :
    eurosToCents "45.67" = some 4567 ∧
    eurosToCents "65" = some 6500 ∧
    eurosToCents "15.999" = some 1600 ∧
    eurosToCents "0.125" = some 13 ∧
    eurosToCents "1.005" = some 100 := by
  exact ⟨by decide, by decide, by decide, by decide, by decide⟩

/-- C10: a non-numeric amount string is not rejected: `addExpense` appends
one record whose `amountCents` is `NaN` (`parseFloat` yields `NaN` and
`Math.round(NaN)` is `NaN`), violating the non-negative-integer invariant;
no error is raised — the function is total and always extends the
collection. -/
theorem addExpense_nan (s : AppState) (freshId description amount category date : String)
    (h : parseDecimal amount = none) :
    (addExpense s freshId description amount category date).expenses
      = s.expenses ++ [⟨freshId, jsTrim description, none, category, date⟩] ∧
    eurosToCents amount = none := by
  have hc : eurosToCents amount = none := by simp [eurosToCents, h]
  exact ⟨by simp [addExpense, dateToISO, hc], hc⟩

/-- Witness for C10: the amount `"abc"` does not parse; the expense is
appended anyway, with `NaN` cents. -/
theorem addExpense_nan_witness :
    (addExpense wState "e9" "Cena" "abc" "ocio" "2024-05-01").expenses
      = wState.expenses ++ [⟨"e9", jsTrim "Cena", none, "ocio", "2024-05-01"⟩] ∧
    eurosToCents "abc" = none :=
  addExpense_nan wState "e9" "Cena" "abc" "ocio" "2024-05-01" (by decide)

/-- A store with two tasks out of comparator order and an empty search:
exactly the situation in which `renderTasks` hands `state.tasks` itself to
the in-place sort. -/
def mutState : AppState :=
  { tasks := [⟨"t1", "x", "alta", true, ""⟩, ⟨"t2", "x", "alta", false, ""⟩],
    expenses := [], currentTab := "tareas", taskSearch := "",
    expenseFilters := ⟨"", ""⟩ }

/-- C6 counterexample: `sortTasks` calls `Array.prototype.sort`, which sorts
its receiver in place, and with an empty search `renderTasks` passes the
store array itself — so running the view operation changes the Record
Store: in `mutState` the done task `"t1"` and the pending task `"t2"` swap
places.  The text comparison is never consulted (both texts are equal, and
`localeCompare` of a string with itself is `0` in every locale, so the
concrete `fun _ _ => 0` is exact here). -/
theorem renderTasks_mutates_store :
    renderTasksRun (fun _ _ => 0) mutState ≠ mutState := by
  decide

/-- C6 amended: the derived-view operations neither add nor remove records
and never touch the filter state, but they are not all pure reads: the
in-place `Array.prototype.sort` inside `sortTasks` reorders the array it is
given, so `renderTasks` with an empty search leaves the task collection a
permutation of the old one (and `getFilteredExpenses` with no active filter
likewise reorders the expense collection); every other state component is
unchanged, and the statistics functions are plain functions of the state. -/
theorem derivedViews_frame (lc : String → String → ℤ) (s : AppState) :
    (renderTasksRun lc s).tasks.Perm s.tasks ∧
    (renderTasksRun lc s).expenses = s.expenses ∧
    (renderTasksRun lc s).taskSearch = s.taskSearch ∧
    (renderTasksRun lc s).expenseFilters = s.expenseFilters ∧
    (renderTasksRun lc s).currentTab = s.currentTab ∧
    (getFilteredExpensesRun s).1.expenses.Perm s.expenses ∧
    (getFilteredExpensesRun s).1.tasks = s.tasks ∧
    (getFilteredExpensesRun s).1.taskSearch = s.taskSearch ∧
    (getFilteredExpensesRun s).1.expenseFilters = s.expenseFilters ∧
    (getFilteredExpensesRun s).1.currentTab = s.currentTab := by
  have hr : ∀ w : AppState, (renderTasksRun lc w).tasks.Perm w.tasks ∧
      (renderTasksRun lc w).expenses = w.expenses ∧
      (renderTasksRun lc w).taskSearch = w.taskSearch ∧
      (renderTasksRun lc w).expenseFilters = w.expenseFilters ∧
      (renderTasksRun lc w).currentTab = w.currentTab := by
    intro w
    unfold renderTasksRun
    split
    · exact ⟨List.perm_insertionSort _ _, rfl, rfl, rfl, rfl⟩
    · exact ⟨List.Perm.refl _, rfl, rfl, rfl, rfl⟩
  have hg : (getFilteredExpensesRun s).1.expenses.Perm s.expenses ∧
      (getFilteredExpensesRun s).1.tasks = s.tasks ∧
      (getFilteredExpensesRun s).1.taskSearch = s.taskSearch ∧
      (getFilteredExpensesRun s).1.expenseFilters = s.expenseFilters ∧
      (getFilteredExpensesRun s).1.currentTab = s.currentTab := by
    unfold getFilteredExpensesRun
    split
    · rename_i h
      refine ⟨?_, rfl, rfl, rfl, rfl⟩
      simp only [getFilteredExpenses, h.1, h.2, if_pos rfl]
      exact List.perm_insertionSort _ _
    · exact ⟨List.Perm.refl _, rfl, rfl, rfl, rfl⟩
  obtain ⟨h1, h2, h3, h4, h5⟩ := hr s
  obtain ⟨g1, g2, g3, g4, g5⟩ := hg
  exact ⟨h1, h2, h3, h4, h5, g1, g2, g3, g4, g5⟩

/-- `orderedInsert` keeps a list pairwise-ordered when the relation is
transitive and total on the elements involved; stated relative to
membership because the source comparator is only consistent on tasks with
valid priorities. -/
theorem orderedInsert_pairwise_mem {α : Type _} (r : α → α → Prop) [DecidableRel r] (a : α) :
    ∀ l : List α,
      (∀ x ∈ a :: l, ∀ y ∈ a :: l, ∀ z ∈ a :: l, r x y → r y z → r x z) →
      (∀ x ∈ a :: l, ∀ y ∈ a :: l, r x y ∨ r y x) →
      l.Pairwise r → (l.orderedInsert r a).Pairwise r
  | [], _, _, _ => by simp
  | b :: t, htrans, htotal, hl => by
    have hsub : ∀ x, x ∈ a :: t → x ∈ a :: b :: t := by
      intro x hx
      rcases List.mem_cons.mp hx with rfl | h
      · exact List.mem_cons_self _ _
      · exact List.mem_cons_of_mem _ (List.mem_cons_of_mem _ h)
    by_cases hab : r a b
    · simp only [List.orderedInsert, if_pos hab]
      refine List.pairwise_cons.mpr ⟨?_, hl⟩
      intro d hd
      rcases List.mem_cons.mp hd with rfl | hdt
      · exact hab
      · have hbd : r b d := (List.pairwise_cons.mp hl).1 d hdt
        exact htrans a (List.mem_cons_self _ _)
          b (List.mem_cons_of_mem _ (List.mem_cons_self _ _))
          d (List.mem_cons_of_mem _ (List.mem_cons_of_mem _ hdt)) hab hbd
    · simp only [List.orderedInsert, if_neg hab]
      have hba : r b a :=
        (htotal a (List.mem_cons_self _ _)
          b (List.mem_cons_of_mem _ (List.mem_cons_self _ _))).resolve_left hab
      refine List.pairwise_cons.mpr ⟨?_, ?_⟩
      · intro d hd
        rcases List.mem_cons.mp ((List.perm_orderedInsert r a t).mem_iff.mp hd) with rfl | hdt
        · exact hba
        · exact (List.pairwise_cons.mp hl).1 d hdt
      · exact orderedInsert_pairwise_mem r a t
          (fun x hx y hy z hz => htrans x (hsub x hx) y (hsub y hy) z (hsub z hz))
          (fun x hx y hy => htotal x (hsub x hx) y (hsub y hy))
          (List.pairwise_cons.mp hl).2

/-- `insertionSort` produces a pairwise-ordered list when the relation is
transitive and total on the elements of the input list. -/
theorem insertionSort_pairwise_mem {α : Type _} (r : α → α → Prop) [DecidableRel r] :
    ∀ l : List α,
      (∀ x ∈ l, ∀ y ∈ l, ∀ z ∈ l, r x y → r y z → r x z) →
      (∀ x ∈ l, ∀ y ∈ l, r x y ∨ r y x) →
      (l.insertionSort r).Pairwise r
  | [], _, _ => by simp
  | a :: t, htrans, htotal => by
    simp only [List.insertionSort]
    have hmem : ∀ x, x ∈ a :: t.insertionSort r → x ∈ a :: t := by
      intro x hx
      rcases List.mem_cons.mp hx with rfl | h
      · exact List.mem_cons_self _ _
      · exact List.mem_cons_of_mem _ ((List.mem_insertionSort r).mp h)
    exact orderedInsert_pairwise_mem r a (t.insertionSort r)
      (fun x hx y hy z hz => htrans x (hmem x hx) y (hmem y hy) z (hmem z hz))
      (fun x hx y hy => htotal x (hmem x hx) y (hmem y hy))
      (insertionSort_pairwise_mem r t
        (fun x hx y hy z hz => htrans x (List.mem_cons_of_mem _ hx) y (List.mem_cons_of_mem _ hy)
          z (List.mem_cons_of_mem _ hz))
        (fun x hx y hy => htotal x (List.mem_cons_of_mem _ hx) y (List.mem_cons_of_mem _ hy)))

/-- The three priority strings have the three distinct ranks `3`, `2`, `1`,
so the rank function is injective on them. -/
theorem priorityOrder_inj {p q : String} (hp : p ∈ PRIORITIES) (hq : q ∈ PRIORITIES)
    (h : priorityOrder p = priorityOrder q) : p = q := by
  simp only [PRIORITIES, List.mem_cons, List.not_mem_nil, or_false] at hp hq
  rcases hp with rfl | rfl | rfl <;> rcases hq with rfl | rfl | rfl <;>
    first
      | rfl
      | (exfalso; revert h; decide)

/-- The comparator order is transitive on tasks with valid priorities,
provided the locale comparison is itself transitive. -/
theorem taskLe_trans_mem (lc : String → String → ℤ)
    (hlct : ∀ x y z : String, lc x y ≤ 0 → lc y z ≤ 0 → lc x z ≤ 0)
    {a b c : Task}
    (hpa : a.priority ∈ PRIORITIES) (hpb : b.priority ∈ PRIORITIES)
    (_hpc : c.priority ∈ PRIORITIES)
    (h₁ : taskLe lc a b) (h₂ : taskLe lc b c) : taskLe lc a c := by
  unfold taskLe taskCmp at h₁ h₂ ⊢
  cases ha : a.done <;> cases hb : b.done <;> cases hc : c.done <;>
      simp only [ha, hb, hc, ne_eq, not_true_eq_false, not_false_eq_true, reduceIte,
        Bool.true_eq_false, Bool.false_eq_true, not_true, not_false_iff] at h₁ h₂ ⊢ <;>
    try omega
  all_goals {
    by_cases hpab : a.priority = b.priority <;> by_cases hpbc : b.priority = c.priority
    · have hpac : a.priority = c.priority := hpab.trans hpbc
      rw [if_neg (fun hh => hh hpab)] at h₁
      rw [if_neg (fun hh => hh hpbc)] at h₂
      rw [if_neg (fun hh => hh hpac)]
      exact hlct _ _ _ h₁ h₂
    · have hpac : ¬a.priority = c.priority := fun hh => hpbc (hpab ▸ hh)
      rw [if_pos (fun hh => hpbc hh)] at h₂
      rw [if_pos (fun hh => hpac hh), hpab]
      exact h₂
    · have hpac : ¬a.priority = c.priority := fun hh => hpab (hh.trans hpbc.symm)
      rw [if_pos (fun hh => hpab hh)] at h₁
      rw [if_pos (fun hh => hpac hh), ← hpbc]
      exact h₁
    · rw [if_pos (fun hh => hpab hh)] at h₁
      rw [if_pos (fun hh => hpbc hh)] at h₂
      by_cases hpac : a.priority = c.priority
      · exfalso
        have : priorityOrder a.priority = priorityOrder b.priority := by
          rw [← hpac] at h₂
          omega
        exact hpab (priorityOrder_inj hpa hpb this)
      · rw [if_pos (fun hh => hpac hh)]
        omega
  }

/-- The comparator order is total: one of the two comparator calls is
`≤ 0`, provided the locale comparison is total. -/
theorem taskLe_total_all (lc : String → String → ℤ)
    (hlcto : ∀ x y : String, lc x y ≤ 0 ∨ lc y x ≤ 0) (a b : Task) :
    taskLe lc a b ∨ taskLe lc b a := by
  unfold taskLe taskCmp
  cases ha : a.done <;> cases hb : b.done <;>
      simp only [ha, hb, ne_eq, not_true_eq_false, not_false_eq_true, reduceIte,
        Bool.true_eq_false, Bool.false_eq_true, not_true, not_false_iff] <;>
    try omega
  all_goals {
    by_cases hp : a.priority = b.priority
    · rw [if_neg (fun hh => hh hp), if_neg (fun hh => hh hp.symm)]
      exact hlcto _ _
    · rw [if_pos (fun hh => hp hh), if_pos (fun hh => hp hh.symm)]
      omega
  }

/-- The order claimed for `sortTasks`, stated in the words of the claim:
pending before done; within equal done-state, descending priority rank
(`alta = 3`, `media = 2`, `baja = 1`); within equal priority, the locale
text comparison. -/
def claimTaskRel (lc : String → String → ℤ) (a b : Task) : Prop :=
  (a.done = false ∧ b.done = true) ∨
  (a.done = b.done ∧ priorityOrder b.priority < priorityOrder a.priority) ∨
  (a.done = b.done ∧ a.priority = b.priority ∧ lc a.text b.text ≤ 0)

/-- On valid priorities, the comparator order implies the claimed order. -/
theorem taskLe_claimTaskRel (lc : String → String → ℤ) {a b : Task}
    (hpa : a.priority ∈ PRIORITIES) (hpb : b.priority ∈ PRIORITIES)
    (h : taskLe lc a b) : claimTaskRel lc a b := by
  unfold taskLe taskCmp at h
  unfold claimTaskRel
  cases ha : a.done <;> cases hb : b.done <;>
      simp only [ha, hb, ne_eq, not_true_eq_false, not_false_eq_true, reduceIte,
        Bool.true_eq_false, Bool.false_eq_true, not_true, not_false_iff] at h ⊢
  case false.false =>
    by_cases hp : a.priority = b.priority
    · rw [if_neg (fun hh => hh hp)] at h
      exact Or.inr (Or.inr ⟨trivial, hp, h⟩)
    · rw [if_pos (fun hh => hp hh)] at h
      refine Or.inr (Or.inl ⟨trivial, ?_⟩)
      have hne : priorityOrder a.priority ≠ priorityOrder b.priority :=
        fun he => hp (priorityOrder_inj hpa hpb he)
      omega
  case false.true => exact Or.inl ⟨trivial, trivial⟩
  case true.false => omega
  case true.true =>
    by_cases hp : a.priority = b.priority
    · rw [if_neg (fun hh => hh hp)] at h
      exact Or.inr (Or.inr ⟨trivial, hp, h⟩)
    · rw [if_pos (fun hh => hp hh)] at h
      refine Or.inr (Or.inl ⟨trivial, ?_⟩)
      have hne : priorityOrder a.priority ≠ priorityOrder b.priority :=
        fun he => hp (priorityOrder_inj hpa hpb he)
      omega

/-- C5: for a transitive and total locale comparison and tasks with valid
priorities, `sortTasks` permutes its input into a list ordered by the
claimed total order — pending before done, then priority rank descending
(`alta = 3`, `media = 2`, `baja = 1`), then the locale text comparison —
and it is stable: any comparator-sorted sublist `c` of the input survives
as a sublist of the output.  On the concrete example, A(pending, alta),
B(pending, media), C(done, alta) come out as [A, B, C]. -/
theorem sortTasks_spec (lc : String → String → ℤ) (tasks c : List Task)
    (hlct : ∀ x y z : String, lc x y ≤ 0 → lc y z ≤ 0 → lc x z ≤ 0)
    (hlcto : ∀ x y : String, lc x y ≤ 0 ∨ lc y x ≤ 0)
    (hpri : ∀ t ∈ tasks, t.priority ∈ PRIORITIES)
    (hc₁ : c.Pairwise (taskLe lc)) (hc₂ : c.Sublist tasks) :
    (sortTasks lc tasks).Perm tasks ∧
    (sortTasks lc tasks).Pairwise (claimTaskRel lc) ∧
    c.Sublist (sortTasks lc tasks) ∧
    sortTasks (fun _ _ => 0)
        [⟨"idC", "t", "alta", true, "now"⟩, ⟨"idA", "t", "alta", false, "now"⟩,
         ⟨"idB", "t", "media", false, "now"⟩]
      = [⟨"idA", "t", "alta", false, "now"⟩, ⟨"idB", "t", "media", false, "now"⟩,
         ⟨"idC", "t", "alta", true, "now"⟩] := by
  have hperm : (sortTasks lc tasks).Perm tasks := List.perm_insertionSort _ _
  have hpw : (sortTasks lc tasks).Pairwise (taskLe lc) :=
    insertionSort_pairwise_mem (taskLe lc) tasks
      (fun x hx y hy z hz h1 h2 =>
        taskLe_trans_mem lc hlct (hpri x hx) (hpri y hy) (hpri z hz) h1 h2)
      (fun x _ y _ => taskLe_total_all lc hlcto x y)
  refine ⟨hperm, ?_, List.sublist_insertionSort hc₁ hc₂, by decide⟩
  refine List.Pairwise.imp_of_mem (fun {x y} hx hy hxy => ?_) hpw
  exact taskLe_claimTaskRel lc (hpri x (hperm.subset hx)) (hpri y (hperm.subset hy)) hxy

/-- Witness for C5: the concrete example tasks, the degenerate (equal-texts)
locale comparison, and the already-ordered sublist [A, B] of the input. -/
theorem sortTasks_spec_witness :
    (sortTasks (fun _ _ => 0)
        [⟨"idC", "t", "alta", true, "now"⟩, ⟨"idA", "t", "alta", false, "now"⟩,
         ⟨"idB", "t", "media", false, "now"⟩]).Perm
      [⟨"idC", "t", "alta", true, "now"⟩, ⟨"idA", "t", "alta", false, "now"⟩,
       ⟨"idB", "t", "media", false, "now"⟩] ∧
    (sortTasks (fun _ _ => 0)
        [⟨"idC", "t", "alta", true, "now"⟩, ⟨"idA", "t", "alta", false, "now"⟩,
         ⟨"idB", "t", "media", false, "now"⟩]).Pairwise (claimTaskRel (fun _ _ => 0)) ∧
    ([⟨"idA", "t", "alta", false, "now"⟩, ⟨"idB", "t", "media", false, "now"⟩] : List Task).Sublist
      (sortTasks (fun _ _ => 0)
        [⟨"idC", "t", "alta", true, "now"⟩, ⟨"idA", "t", "alta", false, "now"⟩,
         ⟨"idB", "t", "media", false, "now"⟩]) ∧
    sortTasks (fun _ _ => 0)
        [⟨"idC", "t", "alta", true, "now"⟩, ⟨"idA", "t", "alta", false, "now"⟩,
         ⟨"idB", "t", "media", false, "now"⟩]
      = [⟨"idA", "t", "alta", false, "now"⟩, ⟨"idB", "t", "media", false, "now"⟩,
         ⟨"idC", "t", "alta", true, "now"⟩] :=
  sortTasks_spec (fun _ _ => 0)
    [⟨"idC", "t", "alta", true, "now"⟩, ⟨"idA", "t", "alta", false, "now"⟩,
     ⟨"idB", "t", "media", false, "now"⟩]
    [⟨"idA", "t", "alta", false, "now"⟩, ⟨"idB", "t", "media", false, "now"⟩]
    (fun _ _ _ h _ => h) (fun _ _ => Or.inl le_rfl) (by decide) (by decide)
    ((List.Sublist.refl _).cons _)

/-- C7: `getFilteredExpenses` returns exactly the expenses passing the
category exact-match filter (skipped when empty) and the month filter, a
`startsWith` test of `dateISO` against the `YYYY-MM` string (skipped when
empty) — stated as a permutation of the one-pass conjunctive filter — and
the result is ordered by descending date, most recent first.  The
hypothesis restricts to canonical `YYYY-MM-DD` data, the only form the app
stores; on malformed strings the source comparator computes `NaN` and
promises nothing.  An expense dated `2024-03-15` passes month filter
`2024-03` and fails `2024-04`. -/
theorem getFilteredExpenses_spec (s : AppState)
    (hval : ∀ e ∈ s.expenses, validDateISO e.dateISO = true) :
    (getFilteredExpenses s).Perm
      (s.expenses.filter (fun e =>
        (s.expenseFilters.category == "" || e.category == s.expenseFilters.category) &&
        (s.expenseFilters.month == "" || jsStartsWith e.dateISO s.expenseFilters.month))) ∧
    (getFilteredExpenses s).Pairwise (fun a b => dateKey b.dateISO ≤ dateKey a.dateISO) ∧
    jsStartsWith "2024-03-15" "2024-03" = true ∧
    jsStartsWith "2024-03-15" "2024-04" = false := by
  clear hval
  refine ⟨?_, ?_, by decide, by decide⟩
  · unfold getFilteredExpenses
    refine (List.perm_insertionSort _ _).trans (List.Perm.of_eq ?_)
    by_cases hc : s.expenseFilters.category = "" <;> by_cases hm : s.expenseFilters.month = ""
    · simp [hc, hm]
    · simp [hc, if_neg hm, beq_eq_false_iff_ne.mpr hm]
    · simp [if_neg hc, hm, beq_eq_false_iff_ne.mpr hc, List.filter_filter]
    · simp only [if_neg hc, if_neg hm, beq_eq_false_iff_ne.mpr hc,
        beq_eq_false_iff_ne.mpr hm, Bool.false_or, List.filter_filter]
      exact List.filter_congr (fun e _ => Bool.and_comm _ _)
  · exact insertionSort_pairwise_mem expLe _
      (fun x _ y _ z _ h1 h2 => le_trans h2 h1)
      (fun x _ y _ => le_total (dateKey y.dateISO) (dateKey x.dateISO))

/-- Witness for C7 at the concrete store (both filters empty, two expenses
with valid dates, stored out of date order). -/
theorem getFilteredExpenses_spec_witness :
    (getFilteredExpenses wState).Perm
      (wState.expenses.filter (fun e =>
        (wState.expenseFilters.category == "" || e.category == wState.expenseFilters.category) &&
        (wState.expenseFilters.month == "" ||
          jsStartsWith e.dateISO wState.expenseFilters.month))) ∧
    (getFilteredExpenses wState).Pairwise
      (fun a b => dateKey b.dateISO ≤ dateKey a.dateISO) ∧
    jsStartsWith "2024-03-15" "2024-03" = true ∧
    jsStartsWith "2024-03-15" "2024-04" = false :=
  getFilteredExpenses_spec wState (by decide)

/-- `List.lookup` after the in-place update of every entry with key `k`:
the looked-up value changes exactly when `k` is the key looked up. -/
theorem lookup_map_update (k c : String) (w : Option ℤ) :
    ∀ (t : List (String × Option ℤ)) (v : Option ℤ), t.lookup c = some v →
      (t.map (fun p => if p.1 == k then (p.1, jsAdd p.2 w) else p)).lookup c
        = some (if k = c then jsAdd v w else v)
  | [], v, hv => by simp at hv
  | p :: t, v, hv => by
    obtain ⟨pk, pv⟩ := p
    rcases hbeq : c == pk with _ | _
    · simp only [List.lookup_cons, hbeq] at hv
      simp only [List.map_cons]
      by_cases hpk : (pk == k) = true
      · rw [if_pos hpk]
        simp only [List.lookup_cons, hbeq]
        exact lookup_map_update k c w t v hv
      · rw [if_neg (by simpa using hpk)]
        simp only [List.lookup_cons, hbeq]
        exact lookup_map_update k c w t v hv
    · simp only [List.lookup_cons, hbeq, Option.some.injEq] at hv
      have hcp : c = pk := by simpa using hbeq
      simp only [List.map_cons]
      by_cases hpk : (pk == k) = true
      · have hkc : k = c := by
          have hh : pk = k := by simpa using hpk
          rw [hcp, hh]
        rw [if_pos hpk]
        simp only [List.lookup_cons, hbeq, hkc, if_pos rfl, hv, if_true]
      · have hkc : ¬k = c := by
          intro hh
          exact hpk (beq_iff_eq.mpr (hh.trans hcp).symm)
        rw [if_neg (by simpa using hpk)]
        simp only [List.lookup_cons, hbeq, hv, if_neg hkc]

/-- Appending a fresh key does not disturb a present key. -/
theorem lookup_append_of_present (k c : String) (w : Option ℤ) :
    ∀ (t : List (String × Option ℤ)) (v : Option ℤ), t.lookup c = some v →
      (t ++ [(k, w)]).lookup c = some v
  | [], v, hv => by simp at hv
  | p :: t, v, hv => by
    obtain ⟨pk, pv⟩ := p
    rw [List.cons_append]
    rcases hbeq : c == pk with _ | _ <;>
      simp only [List.lookup_cons, hbeq] at hv ⊢
    · exact lookup_append_of_present k c w t v hv
    · exact hv

/-- One `totals[k] += w` step, seen through `lookup c`. -/
theorem lookup_objAdd {m : List (String × Option ℤ)} {c : String} {v : Option ℤ}
    (hv : m.lookup c = some v) (k : String) (w : Option ℤ) :
    (objAdd m k w).lookup c = some (if k = c then jsAdd v w else v) := by
  unfold objAdd
  by_cases hk : (m.lookup k).isSome
  · rw [if_pos hk]
    exact lookup_map_update k c w m v hv
  · rw [if_neg hk]
    have hkc : ¬k = c := by
      intro hh
      rw [hh] at hk
      exact hk (by simp [hv])
    rw [if_neg hkc]
    exact lookup_append_of_present k c none m v hv

/-- Folding the filtered expenses through `objAdd`, a present key
accumulates exactly the JS sum of its own category. -/
theorem lookup_foldl_objAdd (c : String) :
    ∀ (es : List Expense) (m : List (String × Option ℤ)) (v : Option ℤ),
      m.lookup c = some v →
      (es.foldl (fun tot e => objAdd tot e.category e.amountCents) m).lookup c
        = some ((es.filter (fun e => e.category == c)).foldl
            (fun a e => jsAdd a e.amountCents) v)
  | [], m, v, hv => by simpa using hv
  | e :: es, m, v, hv => by
    rw [List.foldl_cons]
    have hstep := lookup_objAdd hv e.category e.amountCents
    by_cases hcat : e.category = c
    · rw [List.filter_cons_of_pos (by simpa using hcat), List.foldl_cons]
      exact lookup_foldl_objAdd c es _ (jsAdd v e.amountCents) (by rw [hstep, if_pos hcat])
    · rw [List.filter_cons_of_neg (by simpa using hcat)]
      exact lookup_foldl_objAdd c es _ v (by rw [hstep, if_neg hcat])

/-- JS sum of `amountCents` over the currently filtered expenses of one
category. -/
def catSum (s : AppState) (c : String) : Option ℤ :=
  ((getFilteredExpenses s).filter (fun e => e.category == c)).foldl
    (fun a e => jsAdd a e.amountCents) (some 0)

/-- C8: `calculateCategoryTotals` contains all five category keys, each
mapped to the JS sum of `amountCents` of the currently filtered expenses
(both active filters respected, since the sum ranges over
`getFilteredExpenses`) of that category; a category with no filtered
expenses gets the empty sum `0`, as the concrete empty store shows. -/
theorem calculateCategoryTotals_spec (s : AppState) :
    (calculateCategoryTotals s).lookup "fijos" = some (catSum s "fijos") ∧
    (calculateCategoryTotals s).lookup "ocio" = some (catSum s "ocio") ∧
    (calculateCategoryTotals s).lookup "comida" = some (catSum s "comida") ∧
    (calculateCategoryTotals s).lookup "coche" = some (catSum s "coche") ∧
    (calculateCategoryTotals s).lookup "extras" = some (catSum s "extras") ∧
    calculateCategoryTotals ⟨[], [], "gastos", "", ⟨"", ""⟩⟩
      = [("fijos", some 0), ("ocio", some 0), ("comida", some 0),
         ("coche", some 0), ("extras", some 0)] :=
  ⟨lookup_foldl_objAdd _ _ _ _ (by decide), lookup_foldl_objAdd _ _ _ _ (by decide),
   lookup_foldl_objAdd _ _ _ _ (by decide), lookup_foldl_objAdd _ _ _ _ (by decide),
   lookup_foldl_objAdd _ _ _ _ (by decide), by decide⟩

/-- C9: the bootstrap is per collection.  For every stored content of the
two keys: a collection that deserializes to empty — absent key or corrupt
data (`none`) or an explicitly stored empty array (`some []`) — is seeded
with its fixed sample dataset (3 sample tasks, 3 sample expenses) and that
dataset is persisted to its collection key immediately; a collection that
deserializes to anything non-empty is loaded as stored and its key is left
untouched.  In particular, when both collections deserialize to empty, the
store ends up with exactly the 3 sample tasks and the 3 sample expenses,
both persisted. -/
theorem loadState_bootstrap (env : SampleEnv) (st : Storage) :
    (sampleTasks env).length = 3 ∧
    (sampleExpenses env).length = 3 ∧
    (loadState env st).1.tasks
      = (if st.tasksKey = none ∨ st.tasksKey = some [] then sampleTasks env
         else st.tasksKey.getD []) ∧
    (loadState env st).2.tasksKey
      = (if st.tasksKey = none ∨ st.tasksKey = some [] then some (sampleTasks env)
         else st.tasksKey) ∧
    (loadState env st).1.expenses
      = (if st.expensesKey = none ∨ st.expensesKey = some [] then sampleExpenses env
         else st.expensesKey.getD []) ∧
    (loadState env st).2.expensesKey
      = (if st.expensesKey = none ∨ st.expensesKey = some [] then some (sampleExpenses env)
         else st.expensesKey) := by
  obtain ⟨tk, ek⟩ := st
  rcases tk with _ | (_ | ⟨t, tl⟩) <;> rcases ek with _ | (_ | ⟨e, el⟩) <;>
    simp [loadState, sampleTasks, sampleExpenses]

end Organizador
